import Mathlib

/-!
Verification development for the alpaca-mcp repository (src/index.ts).

The repository is an MCP adapter over the Alpaca REST API.  Its core is:
a generic authenticated `request` helper, a `getBatches` array chunker, and
four fetchers (`getAssets`, `getStockBars`, `getMarketDays`, `getNews`),
two of which run cursor-pagination loops.

Shallow embedding conventions:
* The HTTP transport is an oracle `Http : HttpRequest → HttpResponse`;
  issuing a request is recorded in a trace (`List HttpRequest`).
* JavaScript exceptions are `Except String` values (the string is the
  JS `Error.message`); the fetchers' try/catch is an explicit `match`.
* The two do-while pagination loops take a fuel argument and return
  `none` on fuel exhaustion, modelling potential divergence; likewise the
  `for (let i = 0; i < arr.length; i += size)` loop of `getBatches` is
  embedded as the fuel-indexed `getBatchesFuel` (the JS loop diverges for
  `size ≤ 0` on a non-empty array).
* JS objects are association lists in insertion order; `Object.assign`
  updates an existing key in place and appends unknown keys, which is
  exactly what `assignPair`/`objAssign` do, and `JSON.stringify` prints
  keys in that order.
* `process.env` values are `Option String` (absent = `none`); the JS
  falsiness test `!process.env.X` is true for both `none` and `some ""`.
-/

namespace Alpaca

/-- JSON values, the shape of every request/response body in the adapter. -/
inductive Json where
  | null : Json
  | bool (b : Bool) : Json
  | num (n : Int) : Json
  | str (s : String) : Json
  | arr (items : List Json) : Json
  | obj (fields : List (String × Json)) : Json

/-- Lower-case hex digit, used by the \u escapes of JSON.stringify. -/
def hexDigitLower (n : Nat) : Char :=
  if n < 10 then Char.ofNat (48 + n) else Char.ofNat (87 + n)

/-- Upper-case hex digit, used by URLSearchParams percent-encoding. -/
def hexDigitUpper (n : Nat) : Char :=
  if n < 10 then Char.ofNat (48 + n) else Char.ofNat (55 + n)

/-- String-escaping of one character, per JSON.stringify. -/
def jsonEscapeChar (c : Char) : String :=
  if c = '"' then "\\\""
  else if c = '\\' then "\\\\"
  else if c = '\n' then "\\n"
  else if c = '\t' then "\\t"
  else if c = '\r' then "\\r"
  else if c.toNat = 8 then "\\b"
  else if c.toNat = 12 then "\\f"
  else if c.toNat < 32 then
    "\\u00" ++ (hexDigitLower (c.toNat / 16)).toString ++ (hexDigitLower (c.toNat % 16)).toString
  else c.toString

/-- Quoted JSON string literal, per JSON.stringify. -/
def jsonQuote (s : String) : String :=
  "\"" ++ String.join (s.data.map jsonEscapeChar) ++ "\""

mutual

/-- JSON.stringify (no indentation, as the source calls it). -/
def jsonStringify : Json → String
  | .null => "null"
  | .bool b => if b then "true" else "false"
  | .num n => toString n
  | .str s => jsonQuote s
  | .arr items => "[" ++ jsonStringifyItems items ++ "]"
  | .obj fields => "\x7b" ++ jsonStringifyFields fields ++ "\x7d"

/-- Comma-separated serialization of array elements. -/
def jsonStringifyItems : List Json → String
  | [] => ""
  | [x] => jsonStringify x
  | x :: y :: rest => jsonStringify x ++ "," ++ jsonStringifyItems (y :: rest)

/-- Comma-separated serialization of object entries, in insertion order. -/
def jsonStringifyFields : List (String × Json) → String
  | [] => ""
  | [(k, v)] => jsonQuote k ++ ":" ++ jsonStringify v
  | (k, v) :: q :: rest => jsonQuote k ++ ":" ++ jsonStringify v ++ "," ++ jsonStringifyFields (q :: rest)

end

/-- UTF-8 bytes of a character (by code point arithmetic). -/
def utf8Bytes (c : Char) : List Nat :=
  let n := c.toNat
  if n < 128 then [n]
  else if n < 2048 then [192 + n / 64, 128 + n % 64]
  else if n < 65536 then [224 + n / 4096, 128 + (n / 64) % 64, 128 + n % 64]
  else [240 + n / 262144, 128 + (n / 4096) % 64, 128 + (n / 64) % 64, 128 + n % 64]

/-- Characters URLSearchParams leaves unescaped (ASCII alphanumeric and * - . _). -/
def urlUnreservedChar (c : Char) : Bool :=
  c.isAlphanum || c = '*' || c = '-' || c = '.' || c = '_'

/-- Serialization of one character per URLSearchParams
(application/x-www-form-urlencoded): unreserved pass through, space
becomes +, anything else is percent-encoded byte-wise in upper case. -/
def urlEncodeChar (c : Char) : String :=
  if urlUnreservedChar c then c.toString
  else if c = ' ' then "+"
  else String.join ((utf8Bytes c).map
    (fun b => "%" ++ (hexDigitUpper (b / 16)).toString ++ (hexDigitUpper (b % 16)).toString))

/-- Percent-encoding of a whole string per URLSearchParams. -/
def urlEncode (s : String) : String :=
  String.join (s.data.map urlEncodeChar)

/-- `new URLSearchParams(params).toString()`: key=value pairs joined by &,
in the insertion order of the params object. -/
def queryString (params : List (String × String)) : String :=
  String.intercalate "&" (params.map (fun p => urlEncode p.1 ++ "=" ++ urlEncode p.2))

/-- Process-wide configuration read by the source from `process.env`:
`ALPACA_API_KEY`, `ALPACA_SECRET_KEY`, `ALPACA_ENDPOINT`,
`ALPACA_BROKER_ENDPOINT`.  The credentials may be absent; the two base
URLs are interpolated into URL strings, so they are kept as strings. -/
structure Env where
  apiKey : Option String
  secretKey : Option String
  endpoint : String
  brokerEndpoint : String

/-- JS falsiness of an optional environment string: `!process.env.X` is
true when the variable is unset or set to the empty string. -/
def jsFalsyEnv : Option String → Bool
  | none => true
  | some s => s == ""

/-- Guard of the request helper: `!ALPACA_API_KEY || !ALPACA_SECRET_KEY`. -/
def credMissing (env : Env) : Bool :=
  jsFalsyEnv env.apiKey || jsFalsyEnv env.secretKey

/-- One HTTP call as issued by `fetch(url, { method, headers })`. -/
structure HttpRequest where
  url : String
  method : String
  headers : List (String × String)
deriving DecidableEq

/-- Possible outcomes of one `fetch` call, as far as the source observes
them: an ok response whose body parses as JSON; a non-ok response whose
body parses as JSON (status, statusText, parsed body); a non-ok response
whose body fails to parse (the parse error's message); or a transport
failure (rejection of `fetch` itself). -/
inductive HttpResponse where
  | ok (body : Json)
  | httpError (status : Nat) (statusText : String) (body : Json)
  | httpErrorBadJson (status : Nat) (statusText : String) (parseErrMsg : String)
  | transportError (msg : String)

/-- The network oracle: what the upstream does for each issued request. -/
def Http : Type := HttpRequest → HttpResponse

/-- Fixed message of the credential guard in the request helper. -/
def credsNotConfiguredMsg : String :=
  "Alpaca credentials not configured. Set ALPACA_API_KEY and ALPACA_SECRET_KEY."

/-- URL and headers exactly as the request helper builds them:
direct concatenation base ++ path ++ ("?" ++ qs when qs is non-empty),
no slash normalization, and the two credential headers. -/
def mkRequest (env : Env) (base path : String) (params : List (String × String)) : HttpRequest :=
  let qs := queryString params
  { url := base ++ path ++ (if qs = "" then "" else "?" ++ qs)
    method := "GET"
    headers := [("APCA-API-KEY-ID", env.apiKey.getD ""), ("APCA-API-SECRET-KEY", env.secretKey.getD "")] }

/-- The generic request helper (src/index.ts `request`).  The source's
`method` parameter defaults to "GET" and no caller ever overrides it, so
the method is fixed here.  Returns the JS outcome (resolved JSON value or
raised error message) together with the trace of HTTP calls performed. -/
def request (env : Env) (http : Http) (base path : String)
    (params : List (String × String)) : Except String Json × List HttpRequest :=
  if credMissing env then
    (Except.error credsNotConfiguredMsg, [])
  else
    let req := mkRequest env base path params
    match http req with
    | .ok body => (Except.ok body, [req])
    | .httpError status statusText body =>
        (Except.error (toString status ++ " " ++ statusText ++ " - " ++ jsonStringify body), [req])
    | .httpErrorBadJson _ _ parseErrMsg => (Except.error parseErrMsg, [req])
    | .transportError msg => (Except.error msg, [req])

/-- Result envelope of one tool invocation: the single text content item
and the isError flag (absent in JS on success, modelled as `false`). -/
structure Envelope where
  text : String
  isError : Bool
deriving DecidableEq

/-- Success envelope `{ content: [{ type: "text", text }] }`. -/
def okEnvelope (text : String) : Envelope := ⟨text, false⟩

/-- Error envelope `{ content: [{ type: "text", text }], isError: true }`. -/
def errEnvelope (text : String) : Envelope := ⟨text, true⟩

/-- JS property read `body.k` on a parsed JSON value: on an object the
last entry with that key (JSON.parse keeps the last duplicate), otherwise
undefined (`none`). -/
def Json.getField : Json → String → Option Json
  | .obj fields, k => ((fields.reverse).find? (fun p => p.1 == k)).map (fun p => p.2)
  | _, _ => none

/-- JS truthiness of a JSON value (`0`, `""`, `null`, `false` are falsy). -/
def jsTruthy : Json → Bool
  | .null => false
  | .bool b => b
  | .num n => !(n == 0)
  | .str s => !(s == "")
  | .arr _ => true
  | .obj _ => true

/-- The asset filter predicate `a => a.tradable` of getAssets:
truthiness of the record's tradable property (absent means falsy). -/
def tradableTruthy (a : Json) : Bool :=
  match a.getField "tradable" with
  | some v => jsTruthy v
  | none => false

/-- Literal reading of the spec sentence: the tradable attribute is the
boolean true. -/
def tradableIsTrue (a : Json) : Bool :=
  match a.getField "tradable" with
  | some (.bool true) => true
  | _ => false

/-- Side condition under which the code's truthiness filter and the
spec's "tradable is true" coincide: the tradable attribute, when present,
is a boolean. -/
def tradableBoolOrAbsent (a : Json) : Bool :=
  match a.getField "tradable" with
  | some (.bool _) => true
  | some _ => false
  | none => true

/-- One property write of `Object.assign`: an existing key is updated in
place (keeping its position), a new key is appended. -/
def assignPair (o : List (String × Json)) (k : String) (v : Json) : List (String × Json) :=
  if o.any (fun p => p.1 == k) then o.map (fun p => if p.1 == k then (k, v) else p)
  else o ++ [(k, v)]

/-- `Object.assign(target, src)` on association-list objects. -/
def objAssign (target src : List (String × Json)) : List (String × Json) :=
  src.foldl (fun o p => assignPair o p.1 p.2) target

/-- Enumerable properties contributed by `Object.assign(target, resp.bars)`:
the entries when resp.bars is an object, nothing when it is undefined or
null (Object.assign ignores those) or another primitive.  (The exotic JS
case of a string source contributing index properties is not modelled;
the bars endpoint returns an object.) -/
def assignProps : Option Json → List (String × Json)
  | some (.obj fields) => fields
  | _ => []

/-- Continuation cursor read from a page: `resp.next_page_token`,
with the do-while truthiness test folded in — an absent, null or empty
token means the loop stops (non-string tokens, which the upstream never
sends, are modelled as absent). -/
def nextPageToken (body : Json) : Option String :=
  match body.getField "next_page_token" with
  | some (.str s) => if s == "" then none else some s
  | _ => none

/-- `arr.slice(start, fin)` of JS: clamp both indices (negative indices
count from the end), then take the elements in between. -/
def jsSlice {α : Type} (arr : List α) (start fin : Int) : List α :=
  let len : Int := arr.length
  let s := if start < 0 then max (len + start) 0 else min start len
  let e := if fin < 0 then max (len + fin) 0 else min fin len
  (arr.take e.toNat).drop s.toNat

/-- The loop of `getBatches` (src/index.ts), fuel-indexed:
`for (let i = 0; i < arr.length; i += size) batches.push(arr.slice(i, i + size))`.
`none` models divergence (fuel exhausted); the JS loop indeed diverges
when `size ≤ 0` and the array is non-empty. -/
def getBatchesFuel {α : Type} (arr : List α) (size : Int) : Int → Nat → Option (List (List α))
  | _, 0 => none
  | i, fuel + 1 =>
    if i < (arr.length : Int) then
      (getBatchesFuel arr size (i + size) fuel).map (fun rest => jsSlice arr i (i + size) :: rest)
    else
      some []

/-- `getBatches(arr, size)` (src/index.ts).  For positive sizes the loop
performs at most `arr.length + 1` guard checks, so that much fuel is
always enough; `getBatchesFuel_eq_specChunks` below proves the result is
exactly the chunking the spec describes. -/
def getBatches {α : Type} (arr : List α) (size : Int) : List (List α) :=
  (getBatchesFuel arr size 0 (arr.length + 1)).getD []

/-- Error message of the TypeError raised by `data.filter` when the
upstream assets payload is not an array. -/
def filterTypeErrMsg : String := "data.filter is not a function"

/-- getAssets (src/index.ts): single request to the broker base with
status=active and asset_class (defaulted to us_equity by the parameter
destructuring), then the local tradable filter. -/
def getAssets (env : Env) (http : Http) (assetClass : Option String) :
    Envelope × List HttpRequest :=
  let cls := assetClass.getD "us_equity"
  match request env http env.brokerEndpoint "/v1/assets" [("status", "active"), ("asset_class", cls)] with
  | (.ok (.arr items), tr) =>
      (okEnvelope (jsonStringify (.arr (items.filter tradableTruthy))), tr)
  | (.ok _, tr) => (errEnvelope ("Error fetching assets: " ++ filterTypeErrMsg), tr)
  | (.error e, tr) => (errEnvelope ("Error fetching assets: " ++ e), tr)

/-- getMarketDays (src/index.ts): single request to the data base's
calendar path, pure passthrough of the body. -/
def getMarketDays (env : Env) (http : Http) (start fin : String) :
    Envelope × List HttpRequest :=
  match request env http env.endpoint "/v2/calendar" [("start", start), ("end", fin)] with
  | (.ok days, tr) => (okEnvelope (jsonStringify days), tr)
  | (.error e, tr) => (errEnvelope ("Error fetching market days: " ++ e), tr)

/-- Query parameters of one bars page request, in the source's insertion
order: timeframe, limit=10000 (URLSearchParams stringifies the number),
start, end, symbols joined by comma, and page_token only once known. -/
def barsParams (timeframe start fin : String) (batch : List String) (tok : Option String) :
    List (String × String) :=
  [("timeframe", timeframe), ("limit", "10000"), ("start", start), ("end", fin),
   ("symbols", String.intercalate "," batch)] ++
  (match tok with
   | some t => [("page_token", t)]
   | none => [])

/-- The do-while pagination loop of getStockBars for one batch, carrying
the shared accumulator object `result.bars`; the page's bars are merged
by `Object.assign` and the loop continues while a continuation token is
truthy.  Fuel-indexed; `none` models divergence. -/
def barsPagesImpl (env : Env) (http : Http) (timeframe start fin : String) (batch : List String) :
    Option String → List (String × Json) → Nat →
    Option (Except String (List (String × Json)) × List HttpRequest)
  | _, _, 0 => none
  | tok, acc, fuel + 1 =>
    match request env http env.endpoint "/v2/stocks/bars" (barsParams timeframe start fin batch tok) with
    | (.error e, tr) => some (.error e, tr)
    | (.ok body, tr) =>
      let acc' := objAssign acc (assignProps (body.getField "bars"))
      match nextPageToken body with
      | none => some (.ok acc', tr)
      | some t =>
        match barsPagesImpl env http timeframe start fin batch (some t) acc' fuel with
        | none => none
        | some (r, tr') => some (r, tr ++ tr')

/-- The `for (const batch of getBatches(symbols, 2000))` loop of
getStockBars, threading the shared accumulator through the batches. -/
def barsBatchesImpl (env : Env) (http : Http) (timeframe start fin : String) :
    List (List String) → List (String × Json) → Nat →
    Option (Except String (List (String × Json)) × List HttpRequest)
  | [], acc, _ => some (.ok acc, [])
  | b :: bs, acc, fuel =>
    match barsPagesImpl env http timeframe start fin b none acc fuel with
    | none => none
    | some (.error e, tr) => some (.error e, tr)
    | some (.ok acc', tr) =>
      match barsBatchesImpl env http timeframe start fin bs acc' fuel with
      | none => none
      | some (r, tr') => some (r, tr ++ tr')

/-- getStockBars (src/index.ts): batch the symbols by 2000, run the
pagination loop per batch into one accumulator, wrap `{ bars: ... }`
on success, or the prefixed error envelope on any failure. -/
def getStockBars (env : Env) (http : Http) (symbols : List String)
    (start fin timeframe : String) (fuel : Nat) : Option (Envelope × List HttpRequest) :=
  match barsBatchesImpl env http timeframe start fin (getBatches symbols 2000) [] fuel with
  | none => none
  | some (.ok bars, tr) =>
      some (okEnvelope (jsonStringify (.obj [("bars", .obj bars)])), tr)
  | some (.error e, tr) => some (errEnvelope ("Error fetching stock bars: " ++ e), tr)

/-- Query parameters of the first news request, in the source's insertion
order (include_content: true is stringified by URLSearchParams). -/
def newsFirstParams (start fin : String) (symbols : List String) : List (String × String) :=
  [("sort", "desc"), ("start", start), ("end", fin),
   ("symbols", String.intercalate "," symbols), ("include_content", "true")]

/-- Error message of the TypeError raised by `all.push(...resp.news)`
when the news payload carries no array. -/
def newsSpreadErrMsg : String := "resp.news is not iterable"

/-- Items of one news page: `resp.news` when it is an array. -/
def newsItems (body : Json) : Option (List Json) :=
  match body.getField "news" with
  | some (.arr items) => some items
  | _ => none

/-- The do-while pagination loop of getNews: the first request carries
the full filter parameters, every continuation request carries only
page_token; each page's news items are appended to the flat accumulator.
Fuel-indexed; `none` models divergence. -/
def newsPagesImpl (env : Env) (http : Http) (start fin : String) (symbols : List String) :
    Option String → List Json → Nat →
    Option (Except String (List Json) × List HttpRequest)
  | _, _, 0 => none
  | tok, acc, fuel + 1 =>
    let params := match tok with
      | some t => [("page_token", t)]
      | none => newsFirstParams start fin symbols
    match request env http env.endpoint "/v1beta1/news" params with
    | (.error e, tr) => some (.error e, tr)
    | (.ok body, tr) =>
      match newsItems body with
      | none => some (.error newsSpreadErrMsg, tr)
      | some items =>
        let acc' := acc ++ items
        match nextPageToken body with
        | none => some (.ok acc', tr)
        | some t =>
          match newsPagesImpl env http start fin symbols (some t) acc' fuel with
          | none => none
          | some (r, tr') => some (r, tr ++ tr')

/-- getNews (src/index.ts): cursor pagination from an empty accumulator,
success payload is the JSON encoding of the flat item list. -/
def getNews (env : Env) (http : Http) (start fin : String) (symbols : List String)
    (fuel : Nat) : Option (Envelope × List HttpRequest) :=
  match newsPagesImpl env http start fin symbols none [] fuel with
  | none => none
  | some (.ok all, tr) => some (okEnvelope (jsonStringify (.arr all)), tr)
  | some (.error e, tr) => some (errEnvelope ("Error fetching news: " ++ e), tr)

/-- Chunking as the spec words it, structurally recursive worker:
the bound `n` dominates the list length, each step peels off one chunk
of (at most) `size` elements. -/
def specChunksAux {α : Type} (size : Nat) : Nat → List α → List (List α)
  | 0, _ => []
  | _ + 1, [] => []
  | n + 1, x :: xs => (x :: xs).take size :: specChunksAux size n ((x :: xs).drop size)

/-- Spec wording of the batching contract: an ordered sequence of
consecutive sub-sequences, each of length `size` except possibly the
last; empty input yields no batches. -/
def specChunks {α : Type} (arr : List α) (size : Nat) : List (List α) :=
  specChunksAux size arr.length arr

/-- Spec wording of the bars pagination loop for one batch: issue a
request with parameters {timeframe, limit=10000, start, end, symbols
joined by comma}, adding page_token once a continuation token is known,
collect each page's `bars` mapping in arrival order, and stop when a page
carries no continuation token. -/
def specBarsCollect (env : Env) (http : Http) (timeframe start fin : String)
    (batch : List String) : Option String → Nat →
    Option (Except String (List (List (String × Json))) × List HttpRequest)
  | _, 0 => none
  | tok, fuel + 1 =>
    match request env http env.endpoint "/v2/stocks/bars" (barsParams timeframe start fin batch tok) with
    | (.error e, tr) => some (.error e, tr)
    | (.ok body, tr) =>
      let page := assignProps (body.getField "bars")
      match nextPageToken body with
      | none => some (.ok [page], tr)
      | some t =>
        match specBarsCollect env http timeframe start fin batch (some t) fuel with
        | none => none
        | some (.error e, tr') => some (.error e, tr ++ tr')
        | some (.ok pages, tr') => some (.ok (page :: pages), tr ++ tr')

/-- Spec wording of the batch iteration: for each batch in input order,
run the pagination loop and collect all pages; any failure aborts the
whole operation. -/
def specBarsAllPages (env : Env) (http : Http) (timeframe start fin : String) :
    List (List String) → Nat →
    Option (Except String (List (List (String × Json))) × List HttpRequest)
  | [], _ => some (.ok [], [])
  | b :: bs, fuel =>
    match specBarsCollect env http timeframe start fin b none fuel with
    | none => none
    | some (.error e, tr) => some (.error e, tr)
    | some (.ok pages, tr) =>
      match specBarsAllPages env http timeframe start fin bs fuel with
      | none => none
      | some (.error e, tr') => some (.error e, tr ++ tr')
      | some (.ok pages', tr') => some (.ok (pages ++ pages'), tr ++ tr')

/-- Reference getStockBars written from the claim's words: partition the
symbols into consecutive batches of at most 2000, run the pagination loop
per batch in input order, merge every page's bars mapping into one
accumulator mapping where later pages' keys overwrite earlier ones, and
on success wrap the JSON encoding of { bars: merged }. -/
def specGetStockBars (env : Env) (http : Http) (symbols : List String)
    (start fin timeframe : String) (fuel : Nat) : Option (Envelope × List HttpRequest) :=
  match specBarsAllPages env http timeframe start fin (specChunks symbols 2000) fuel with
  | none => none
  | some (.error e, tr) => some (errEnvelope ("Error fetching stock bars: " ++ e), tr)
  | some (.ok pages, tr) =>
      some (okEnvelope (jsonStringify (.obj [("bars", .obj (pages.foldl objAssign []))])), tr)

/-- Spec wording of the news pagination loop: collect each page's `news`
array in arrival order, stopping when no continuation token is returned;
the first request carries the full filter parameters, every continuation
request carries only page_token. -/
def specNewsCollect (env : Env) (http : Http) (start fin : String) (symbols : List String) :
    Option String → Nat → Option (Except String (List (List Json)) × List HttpRequest)
  | _, 0 => none
  | tok, fuel + 1 =>
    let params := match tok with
      | some t => [("page_token", t)]
      | none => newsFirstParams start fin symbols
    match request env http env.endpoint "/v1beta1/news" params with
    | (.error e, tr) => some (.error e, tr)
    | (.ok body, tr) =>
      match newsItems body with
      | none => some (.error newsSpreadErrMsg, tr)
      | some items =>
        match nextPageToken body with
        | none => some (.ok [items], tr)
        | some t =>
          match specNewsCollect env http start fin symbols (some t) fuel with
          | none => none
          | some (.error e, tr') => some (.error e, tr ++ tr')
          | some (.ok pages, tr') => some (.ok (items :: pages), tr ++ tr')

/-- Reference getNews written from the claim's words: the pages' news
arrays are appended into one flat list preserving arrival order, and the
success payload is the JSON encoding of that flat list. -/
def specGetNews (env : Env) (http : Http) (start fin : String) (symbols : List String)
    (fuel : Nat) : Option (Envelope × List HttpRequest) :=
  match specNewsCollect env http start fin symbols none fuel with
  | none => none
  | some (.ok pages, tr) => some (okEnvelope (jsonStringify (.arr pages.flatten)), tr)
  | some (.error e, tr) => some (errEnvelope ("Error fetching news: " ++ e), tr)

/-- The first news request, carrying exactly the filter parameters. -/
def newsFirstRequest (env : Env) (start fin : String) (symbols : List String) : HttpRequest :=
  mkRequest env env.endpoint "/v1beta1/news" (newsFirstParams start fin symbols)

/-- A news continuation request, carrying only the page_token parameter. -/
def newsTokenRequest (env : Env) (t : String) : HttpRequest :=
  mkRequest env env.endpoint "/v1beta1/news" [("page_token", t)]

/-- Concrete environment mirroring the repository's vitest setup. -/
def testEnv : Env := ⟨some "key", some "secret", "https://api/", "https://broker/"⟩

/-- Environment with both credential variables cleared. -/
def testEnvNoCreds : Env := ⟨none, none, "https://api/", "https://broker/"⟩

/-- Oracle that always answers 500 with body {"message":"fail"}. -/
def http500 : Http := fun _ => .httpError 500 "Error" (.obj [("message", .str "fail")])

/-- Oracle that always answers 404 with body {"error":"fail"}. -/
def http404 : Http := fun _ => .httpError 404 "Not Found" (.obj [("error", .str "fail")])

/-- Oracle whose fetch always rejects at the transport level. -/
def httpNoNetwork : Http := fun _ => .transportError "network unreachable"

/-- Upstream asset records of the vitest fixture. -/
def testAssets : List Json :=
  [.obj [("tradable", .bool true), ("symbol", .str "A")],
   .obj [("tradable", .bool false), ("symbol", .str "B")]]

/-- Oracle answering every request with the asset fixture array. -/
def httpAssetsOk : Http := fun _ => .ok (.arr testAssets)

/-- First news page: one item and a continuation token. -/
def newsPage1 : Json :=
  .obj [("news", .arr [.obj [("id", .num 1)]]), ("next_page_token", .str "tok2")]

/-- Second news page: one item, no continuation token. -/
def newsPage2 : Json := .obj [("news", .arr [.obj [("id", .num 2)]])]

/-- Oracle serving the two news pages keyed by URL. -/
def httpNewsPages : Http := fun req =>
  if req.url = "https://api//v1beta1/news?page_token=tok2" then .ok newsPage2 else .ok newsPage1

/-- One bars page for symbol A. -/
def barsPageA : Json := .obj [("bars", .obj [("A", .obj [("value", .num 1)])])]

/-- Oracle that serves the A bars page and fails every other request. -/
def httpBarsAThenFail : Http := fun req =>
  if req.url = "https://api//v2/stocks/bars?timeframe=1Day&limit=10000&start=2021-01-01&end=2021-01-02&symbols=A"
  then .ok barsPageA
  else .httpError 500 "Error" (.obj [("message", .str "fail")])

/-! Helper lemmas about the chunking functions. -/

theorem specChunksAux_nil {α : Type} (size : Nat) : ∀ n, specChunksAux size n ([] : List α) = [] := by
  intro n
  cases n <;> rfl

theorem specChunksAux_stable {α : Type} (size : Nat) (hS : 1 ≤ size) :
    ∀ (n m : Nat) (l : List α), l.length ≤ n → l.length ≤ m →
      specChunksAux size n l = specChunksAux size m l := by
  intro n
  induction n with
  | zero =>
    intro m l hn _
    have : l = [] := List.eq_nil_of_length_eq_zero (Nat.le_zero.mp hn)
    subst this
    rw [specChunksAux_nil, specChunksAux_nil]
  | succ n ih =>
    intro m l hn hm
    cases l with
    | nil => rw [specChunksAux_nil, specChunksAux_nil]
    | cons x xs =>
      cases m with
      | zero => simp at hm
      | succ m =>
        show (x :: xs).take size :: specChunksAux size n ((x :: xs).drop size) =
          (x :: xs).take size :: specChunksAux size m ((x :: xs).drop size)
        have hd : ((x :: xs).drop size).length ≤ n := by
          rw [List.length_drop]
          simp only [List.length_cons] at *
          omega
        have hd2 : ((x :: xs).drop size).length ≤ m := by
          rw [List.length_drop]
          simp only [List.length_cons] at *
          omega
        rw [ih m _ hd hd2]

theorem specChunks_nil {α : Type} (size : Nat) : specChunks ([] : List α) size = [] := rfl

theorem specChunks_cons {α : Type} (size : Nat) (hS : 1 ≤ size) (l : List α) (hl : l ≠ []) :
    specChunks l size = l.take size :: specChunks (l.drop size) size := by
  cases l with
  | nil => exact absurd rfl hl
  | cons x xs =>
    show specChunksAux size (x :: xs).length (x :: xs) = _
    have hstep : specChunksAux size (x :: xs).length (x :: xs) =
        (x :: xs).take size :: specChunksAux size xs.length ((x :: xs).drop size) := rfl
    rw [hstep]
    unfold specChunks
    rw [specChunksAux_stable size hS xs.length ((x :: xs).drop size).length _
      (by rw [List.length_drop]; simp only [List.length_cons]; omega) (le_refl _)]

theorem jsSlice_chunk {α : Type} (l : List α) (i k : Nat) (hk : 1 ≤ k) (hi : i < l.length) :
    jsSlice l (i : Int) ((i + k : Nat) : Int) = (l.drop i).take k := by
  have h0 : ¬((i : Int) < 0) := by omega
  have h1 : ¬(((i + k : Nat) : Int) < 0) := by omega
  have hs : (min (i : Int) ((l.length : Nat) : Int)).toNat = i := by omega
  simp only [jsSlice, h0, h1, if_false]
  rw [hs]
  have he : l.take (min ((i + k : Nat) : Int) ((l.length : Nat) : Int)).toNat = l.take (i + k) := by
    rcases le_or_lt ((i + k : Nat) : Int) ((l.length : Nat) : Int) with h | h
    · have : (min ((i + k : Nat) : Int) ((l.length : Nat) : Int)).toNat = i + k := by omega
      rw [this]
    · have h2 : (min ((i + k : Nat) : Int) ((l.length : Nat) : Int)).toNat = l.length := by omega
      rw [h2, List.take_length, List.take_of_length_le (by omega)]
  rw [he, List.drop_take]
  congr 1
  omega

theorem getBatchesFuel_some {α : Type} (l : List α) (S : Int) (hS : 1 ≤ S) :
    ∀ (fuel : Nat) (i : Nat), l.length - i < fuel →
      getBatchesFuel l S (i : Int) fuel = some (specChunks (l.drop i) S.toNat) := by
  intro fuel
  induction fuel with
  | zero => intro i h; omega
  | succ n ih =>
    intro i h
    by_cases hi : (i : Int) < ((l.length : Nat) : Int)
    · have hiN : i < l.length := by omega
      have hcast : (i : Int) + S = ((i + S.toNat : Nat) : Int) := by omega
      have hrec : getBatchesFuel l S ((i + S.toNat : Nat) : Int) n =
          some (specChunks (l.drop (i + S.toNat)) S.toNat) := ih (i + S.toNat) (by omega)
      show (if (i : Int) < ((l.length : Nat) : Int) then
          (getBatchesFuel l S ((i : Int) + S) n).map (fun rest => jsSlice l i ((i : Int) + S) :: rest)
        else some []) = _
      rw [if_pos hi, hcast, hrec]
      have hslice : jsSlice l (i : Int) ((i + S.toNat : Nat) : Int) = (l.drop i).take S.toNat :=
        jsSlice_chunk l i S.toNat (by omega) hiN
      have hnonnil : l.drop i ≠ [] := by
        intro hcon
        rw [List.drop_eq_nil_iff] at hcon
        omega
      rw [Option.map_some']
      rw [specChunks_cons S.toNat (by omega) (l.drop i) hnonnil]
      rw [hslice, List.drop_drop]
    · have hiN : l.length ≤ i := by omega
      show (if (i : Int) < ((l.length : Nat) : Int) then
          (getBatchesFuel l S ((i : Int) + S) n).map (fun rest => jsSlice l i ((i : Int) + S) :: rest)
        else some []) = _
      rw [if_neg hi]
      rw [List.drop_eq_nil_iff.mpr hiN, specChunks_nil]

theorem getBatches_eq_specChunks {α : Type} (l : List α) (S : Int) (hS : 1 ≤ S) :
    getBatches l S = specChunks l S.toNat := by
  unfold getBatches
  have h := getBatchesFuel_some l S hS (l.length + 1) 0 (by omega)
  simp only [Nat.cast_zero] at h
  rw [h, List.drop_zero, Option.getD_some]

theorem getBatchesFuel_diverges {α : Type} (l : List α) (hl : l ≠ []) (S : Int) (hS : S ≤ 0) :
    ∀ (fuel : Nat) (i : Int), i ≤ 0 → getBatchesFuel l S i fuel = none := by
  have hlen : 0 < l.length := List.length_pos.mpr hl
  intro fuel
  induction fuel with
  | zero => intro i _; rfl
  | succ n ih =>
    intro i hi
    show (if i < ((l.length : Nat) : Int) then
        (getBatchesFuel l S (i + S) n).map (fun rest => jsSlice l i (i + S) :: rest)
      else some []) = none
    rw [if_pos (by omega), ih (i + S) (by omega)]
    rfl

theorem specChunksAux_flatten {α : Type} (size : Nat) (hS : 1 ≤ size) :
    ∀ (n : Nat) (l : List α), l.length ≤ n → (specChunksAux size n l).flatten = l := by
  intro n
  induction n with
  | zero =>
    intro l hl
    have : l = [] := List.eq_nil_of_length_eq_zero (Nat.le_zero.mp hl)
    subst this
    rfl
  | succ n ih =>
    intro l hl
    cases l with
    | nil => rw [specChunksAux_nil]; rfl
    | cons x xs =>
      show (((x :: xs).take size) :: specChunksAux size n ((x :: xs).drop size)).flatten = x :: xs
      rw [List.flatten_cons, ih _ (by rw [List.length_drop]; simp only [List.length_cons] at *; omega)]
      exact List.take_append_drop size (x :: xs)

theorem specChunksAux_length_le {α : Type} (size : Nat) :
    ∀ (n : Nat) (l : List α), ∀ b ∈ specChunksAux size n l, b.length ≤ size := by
  intro n
  induction n with
  | zero => intro l b hb; simp [specChunksAux] at hb
  | succ n ih =>
    intro l b hb
    cases l with
    | nil => rw [specChunksAux_nil] at hb; simp at hb
    | cons x xs =>
      have hstep : specChunksAux size (n + 1) (x :: xs) =
          (x :: xs).take size :: specChunksAux size n ((x :: xs).drop size) := rfl
      rw [hstep, List.mem_cons] at hb
      rcases hb with hb | hb
      · rw [hb]
        exact List.length_take_le size (x :: xs)
      · exact ih _ b hb

theorem specChunksAux_dropLast_length {α : Type} (size : Nat) (hS : 1 ≤ size) :
    ∀ (n : Nat) (l : List α), l.length ≤ n →
      ∀ b ∈ (specChunksAux size n l).dropLast, b.length = size := by
  intro n
  induction n with
  | zero =>
    intro l hl b hb
    have : l = [] := List.eq_nil_of_length_eq_zero (Nat.le_zero.mp hl)
    subst this
    simp [specChunksAux] at hb
  | succ n ih =>
    intro l hl b hb
    cases l with
    | nil => rw [specChunksAux_nil] at hb; simp at hb
    | cons x xs =>
      have hstep : specChunksAux size (n + 1) (x :: xs) =
          (x :: xs).take size :: specChunksAux size n ((x :: xs).drop size) := rfl
      rw [hstep] at hb
      cases hrest : specChunksAux size n ((x :: xs).drop size) with
      | nil => rw [hrest] at hb; simp at hb
      | cons r rs =>
        rw [hrest] at hb
        have hsplit : ((x :: xs).take size :: r :: rs).dropLast =
            (x :: xs).take size :: (r :: rs).dropLast := rfl
        rw [hsplit, List.mem_cons] at hb
        rcases hb with hb | hb
        · have hdrop : (x :: xs).drop size ≠ [] := by
            intro hcon
            rw [hcon, specChunksAux_nil] at hrest
            exact List.noConfusion hrest
          have hlen : size < (x :: xs).length := by
            by_contra hcon
            exact hdrop (List.drop_eq_nil_iff.mpr (by omega))
          rw [hb, List.length_take]
          omega
        · have hmem := ih ((x :: xs).drop size)
            (by rw [List.length_drop]; simp only [List.length_cons] at *; omega) b
          rw [hrest] at hmem
          exact hmem hb

theorem specChunksAux_getLast_length {α : Type} (size : Nat) (hS : 1 ≤ size) :
    ∀ (n : Nat) (l : List α), l ≠ [] → l.length ≤ n →
      ∀ b, (specChunksAux size n l).getLast? = some b →
        b.length = if l.length % size = 0 then size else l.length % size := by
  intro n
  induction n with
  | zero =>
    intro l hl hn
    have : l = [] := List.eq_nil_of_length_eq_zero (Nat.le_zero.mp hn)
    exact absurd this hl
  | succ n ih =>
    intro l hl hn b hb
    cases l with
    | nil => exact absurd rfl hl
    | cons x xs =>
      have hstep : specChunksAux size (n + 1) (x :: xs) =
          (x :: xs).take size :: specChunksAux size n ((x :: xs).drop size) := rfl
      rw [hstep] at hb
      by_cases hd : (x :: xs).drop size = []
      · rw [hd, specChunksAux_nil] at hb
        have hsing : ([(x :: xs).take size] : List (List α)).getLast? =
            some ((x :: xs).take size) := rfl
        rw [hsing] at hb
        have hb' : b = (x :: xs).take size := (Option.some.inj hb).symm
        have hlen : (x :: xs).length ≤ size := List.drop_eq_nil_iff.mp hd
        have hpos : 0 < (x :: xs).length := by simp
        rw [hb', List.length_take]
        rcases Nat.lt_or_ge (x :: xs).length size with h | h
        · rw [Nat.mod_eq_of_lt h, if_neg (by omega)]
          omega
        · have heq : (x :: xs).length = size := by omega
          rw [heq, Nat.mod_self, if_pos rfl]
          omega
      · cases hrest : specChunksAux size n ((x :: xs).drop size) with
        | nil =>
          exfalso
          rcases hcd : (x :: xs).drop size with _ | ⟨y, ys⟩
          · exact hd hcd
          · have hdl : ((x :: xs).drop size).length ≤ n := by
              rw [List.length_drop]
              simp only [List.length_cons] at *
              omega
            rw [hcd] at hdl
            simp only [List.length_cons] at hdl
            rcases n with _ | m
            · omega
            · rw [hcd] at hrest
              have hstep2 : specChunksAux size (m + 1) (y :: ys) =
                  (y :: ys).take size :: specChunksAux size m ((y :: ys).drop size) := rfl
              rw [hstep2] at hrest
              exact List.noConfusion hrest
        | cons r rs =>
          rw [hrest] at hb
          rw [List.getLast?_cons_cons] at hb
          have hS' : size ≤ (x :: xs).length := by
            by_contra hcon
            exact hd (List.drop_eq_nil_iff.mpr (by omega))
          have hlast := ih ((x :: xs).drop size) hd
            (by rw [List.length_drop]; simp only [List.length_cons] at *; omega) b
          rw [hrest] at hlast
          have hblen := hlast hb
          have hmod : ((x :: xs).drop size).length % size = (x :: xs).length % size := by
            rw [List.length_drop]
            conv_rhs => rw [← Nat.sub_add_cancel hS']
            rw [Nat.add_mod_right]
          rw [hmod] at hblen
          exact hblen

/-! Claims C3, C10, C9. -/

/-- C3: for every input sequence and every positive batch size S,
getBatches returns consecutive sub-sequences whose in-order concatenation
reproduces the input exactly (so no element is reordered or dropped),
every batch except possibly the last has length exactly S, the last has
length N mod S (or S when N mod S = 0), and the empty input yields zero
batches; the embedded function is pure, hence deterministic. -/
theorem C3_getBatches_partition {α : Type} (l : List α) (S : Int) (hS : 0 < S) :
    (getBatches l S).flatten = l ∧
    (∀ b ∈ (getBatches l S).dropLast, b.length = S.toNat) ∧
    (∀ b, (getBatches l S).getLast? = some b →
      b.length = if l.length % S.toNat = 0 then S.toNat else l.length % S.toNat) ∧
    getBatches ([] : List α) S = [] := by
  have h1 : (1 : Int) ≤ S := hS
  refine ⟨?_, ?_, ?_, ?_⟩
  · rw [getBatches_eq_specChunks l S h1]
    exact specChunksAux_flatten S.toNat (by omega) l.length l (le_refl _)
  · rw [getBatches_eq_specChunks l S h1]
    exact specChunksAux_dropLast_length S.toNat (by omega) l.length l (le_refl _)
  · rw [getBatches_eq_specChunks l S h1]
    intro b hb
    rcases eq_or_ne l [] with hl | hl
    · subst hl
      rw [specChunks_nil] at hb
      exact absurd hb (by simp)
    · exact specChunksAux_getLast_length S.toNat (by omega) l.length l hl (le_refl _) b hb
  · rw [getBatches_eq_specChunks ([] : List α) S h1]
    exact specChunks_nil S.toNat

/-- Witness for C3 at the spec example: batching [1,2,3,4,5] with size 2
yields [[1,2],[3,4],[5]]. -/
theorem C3_getBatches_partition_witness :
    ((getBatches [1,2,3,4,5] (2 : Int)).flatten = [1,2,3,4,5] ∧
      (∀ b ∈ (getBatches [1,2,3,4,5] (2 : Int)).dropLast, b.length = (2 : Int).toNat) ∧
      (∀ b, (getBatches [1,2,3,4,5] (2 : Int)).getLast? = some b →
        b.length = if ([1,2,3,4,5] : List Nat).length % (2 : Int).toNat = 0 then (2 : Int).toNat
          else ([1,2,3,4,5] : List Nat).length % (2 : Int).toNat) ∧
      getBatches ([] : List Nat) (2 : Int) = []) ∧
    getBatches [1,2,3,4,5] (2 : Int) = [[1,2],[3,4],[5]] :=
  ⟨C3_getBatches_partition [1,2,3,4,5] 2 (by decide), by decide⟩

/-- C10: the getBatches loop terminates for every array exactly when the
size is positive: with positive size, fuel `arr.length + 1` always
suffices; with a non-empty array and size zero or negative, the loop
index never passes the array length and no amount of fuel produces a
result, so the positive-size precondition is necessary for totality. -/
theorem C10_getBatches_termination :
    (∀ (α : Type) (l : List α) (S : Int), 0 < S →
      (getBatchesFuel l S 0 (l.length + 1)).isSome = true) ∧
    (∀ (α : Type) (l : List α) (S : Int), l ≠ [] → S ≤ 0 →
      ∀ fuel : Nat, getBatchesFuel l S 0 fuel = none) := by
  constructor
  · intro α l S hS
    have h := getBatchesFuel_some l S hS (l.length + 1) 0 (by omega)
    simp only [Nat.cast_zero] at h
    rw [h]
    rfl
  · intro α l S hl hS fuel
    exact getBatchesFuel_diverges l hl S hS fuel 0 (le_refl (0 : Int))

/-- Witness for C10: size 2 on [1,2,3] terminates within fuel 4; size 0
on [1] yields no result at fuel 5. -/
theorem C10_getBatches_termination_witness :
    (getBatchesFuel [1,2,3] (2 : Int) 0 4).isSome = true ∧
    getBatchesFuel [1] (0 : Int) 0 5 = none :=
  ⟨C10_getBatches_termination.1 Nat [1,2,3] 2 (by decide),
   C10_getBatches_termination.2 Nat [1] 0 (by decide) (by decide) 5⟩

/-- C9: for the empty symbol list getStockBars issues no HTTP request and
returns the success envelope whose payload is the JSON encoding of
{ bars: {} }, for every environment - in particular also when the
credentials are not configured, since the credential check sits inside the
request helper and no request is ever issued. -/
theorem C9_getStockBars_empty_symbols (env : Env) (http : Http)
    (start fin timeframe : String) (fuel : Nat) :
    getStockBars env http [] start fin timeframe fuel =
      some (okEnvelope "\x7b\"bars\":\x7b\x7d\x7d", []) := rfl

/-! Claims about the request helper and the simple fetchers. -/

theorem request_credMissing (env : Env) (http : Http) (base path : String)
    (params : List (String × String)) (h : credMissing env = true) :
    request env http base path params = (Except.error credsNotConfiguredMsg, []) := by
  simp [request, h]

theorem barsBatchesImpl_credMissing (env : Env) (http : Http)
    (timeframe start fin : String) (h : credMissing env = true)
    (b : List String) (bs : List (List String)) (acc : List (String × Json)) (fuel : Nat) :
    barsBatchesImpl env http timeframe start fin (b :: bs) acc (fuel + 1) =
      some (Except.error credsNotConfiguredMsg, []) := by
  have hr := request_credMissing env http env.endpoint "/v2/stocks/bars"
    (barsParams timeframe start fin b none) h
  simp [barsBatchesImpl, barsPagesImpl, hr]

/-- C4 (amended): whenever either credential string is absent or empty,
the request helper fails before any network activity (empty trace) with
exactly the fixed message; consequently every fetcher invocation that
issues at least one request - all of them except getStockBars on an empty
symbol list - returns the prefixed error envelope with an empty trace. -/
theorem C4_credentials_guard :
    (∀ (env : Env) (http : Http) (base path : String) (params : List (String × String)),
      credMissing env = true →
      request env http base path params = (Except.error credsNotConfiguredMsg, [])) ∧
    (∀ (env : Env) (http : Http) (assetClass : Option String),
      credMissing env = true →
      getAssets env http assetClass =
        (errEnvelope ("Error fetching assets: " ++ credsNotConfiguredMsg), [])) ∧
    (∀ (env : Env) (http : Http) (start fin : String),
      credMissing env = true →
      getMarketDays env http start fin =
        (errEnvelope ("Error fetching market days: " ++ credsNotConfiguredMsg), [])) ∧
    (∀ (env : Env) (http : Http) (start fin : String) (symbols : List String) (fuel : Nat),
      credMissing env = true →
      getNews env http start fin symbols (fuel + 1) =
        some (errEnvelope ("Error fetching news: " ++ credsNotConfiguredMsg), [])) ∧
    (∀ (env : Env) (http : Http) (symbols : List String) (start fin timeframe : String)
        (fuel : Nat),
      credMissing env = true → symbols ≠ [] →
      getStockBars env http symbols start fin timeframe (fuel + 1) =
        some (errEnvelope ("Error fetching stock bars: " ++ credsNotConfiguredMsg), [])) := by
  refine ⟨?_, ?_, ?_, ?_, ?_⟩
  · intro env http base path params h
    exact request_credMissing env http base path params h
  · intro env http assetClass h
    have hr := request_credMissing env http env.brokerEndpoint "/v1/assets"
      [("status", "active"), ("asset_class", assetClass.getD "us_equity")] h
    simp [getAssets, hr]
  · intro env http start fin h
    have hr := request_credMissing env http env.endpoint "/v2/calendar"
      [("start", start), ("end", fin)] h
    simp [getMarketDays, hr]
  · intro env http start fin symbols fuel h
    have hr := request_credMissing env http env.endpoint "/v1beta1/news"
      (newsFirstParams start fin symbols) h
    simp [getNews, newsPagesImpl, hr]
  · intro env http symbols start fin timeframe fuel h hsym
    have hb : getBatches symbols 2000 = specChunks symbols 2000 :=
      getBatches_eq_specChunks symbols 2000 (by omega)
    obtain ⟨x, xs, rfl⟩ : ∃ x xs, symbols = x :: xs := by
      cases symbols with
      | nil => exact absurd rfl hsym
      | cons a as => exact ⟨a, as, rfl⟩
    rw [specChunks_cons 2000 (by omega) _ (by simp)] at hb
    unfold getStockBars
    rw [hb, barsBatchesImpl_credMissing env http timeframe start fin h _ _ [] fuel]

/-- Counterexample for C4 as frozen: with both credentials cleared,
invoking the getStockBars fetcher on the empty symbol list performs no
network call and returns a success envelope (isError false, no
credential message), so "clearing both credentials makes any fetcher
invocation yield a rejection containing that message" is false. -/
theorem C4_credentials_guard_counterexample :
    getStockBars testEnvNoCreds httpNoNetwork [] "2021-01-01" "2021-01-02" "1Day" 1 =
      some (okEnvelope "\x7b\"bars\":\x7b\x7d\x7d", []) ∧
    (okEnvelope "\x7b\"bars\":\x7b\x7d\x7d").isError = false ∧
    credMissing testEnvNoCreds = true :=
  ⟨rfl, rfl, rfl⟩

/-- Witness for C4 (amended) on a concrete cleared environment. -/
theorem C4_credentials_guard_witness :
    request testEnvNoCreds httpNoNetwork "https://api/" "/v2/calendar" [] =
      (Except.error credsNotConfiguredMsg, []) ∧
    getMarketDays testEnvNoCreds httpNoNetwork "2021-01-01" "2021-01-02" =
      (errEnvelope ("Error fetching market days: " ++ credsNotConfiguredMsg), []) ∧
    getNews testEnvNoCreds httpNoNetwork "2021-01-01" "2021-01-02" ["A"] 1 =
      some (errEnvelope ("Error fetching news: " ++ credsNotConfiguredMsg), []) ∧
    getStockBars testEnvNoCreds httpNoNetwork ["A"] "2021-01-01" "2021-01-02" "1Day" 1 =
      some (errEnvelope ("Error fetching stock bars: " ++ credsNotConfiguredMsg), []) :=
  ⟨C4_credentials_guard.1 testEnvNoCreds httpNoNetwork "https://api/" "/v2/calendar" [] rfl,
   C4_credentials_guard.2.2.1 testEnvNoCreds httpNoNetwork "2021-01-01" "2021-01-02" rfl,
   C4_credentials_guard.2.2.2.1 testEnvNoCreds httpNoNetwork "2021-01-01" "2021-01-02" ["A"] 0 rfl,
   C4_credentials_guard.2.2.2.2 testEnvNoCreds httpNoNetwork ["A"] "2021-01-01" "2021-01-02"
     "1Day" 0 rfl (by decide)⟩

/-- C5: for every non-success HTTP response whose body parses as JSON the
request helper raises exactly "<status> <statusText> - <json-body>", and
for a non-success response whose body is not valid JSON it raises the
parse error itself. -/
theorem C5_request_error_format :
    ∀ (env : Env) (http : Http) (base path : String) (params : List (String × String))
      (status : Nat) (statusText : String) (body : Json) (parseErrMsg : String),
      credMissing env = false →
      (http (mkRequest env base path params) = HttpResponse.httpError status statusText body →
        request env http base path params =
          (Except.error (toString status ++ " " ++ statusText ++ " - " ++ jsonStringify body),
            [mkRequest env base path params])) ∧
      (http (mkRequest env base path params) =
          HttpResponse.httpErrorBadJson status statusText parseErrMsg →
        request env http base path params =
          (Except.error parseErrMsg, [mkRequest env base path params])) := by
  intro env http base path params status statusText body parseErrMsg h
  constructor
  · intro hh
    simp [request, h, hh]
  · intro hh
    simp [request, h, hh]

/-- Witness for C5: the 404 fixture of the repository tests produces
exactly "404 Not Found - \x7b"error":"fail"\x7d". -/
theorem C5_request_error_format_witness :
    request testEnv http404 "https://api/" "/e" [] =
      (Except.error (toString (404 : Nat) ++ " " ++ "Not Found" ++ " - " ++
        jsonStringify (.obj [("error", .str "fail")])),
       [mkRequest testEnv "https://api/" "/e" []]) ∧
    toString (404 : Nat) ++ " " ++ "Not Found" ++ " - " ++
        jsonStringify (.obj [("error", .str "fail")]) =
      "404 Not Found - \x7b\"error\":\"fail\"\x7d" :=
  ⟨(C5_request_error_format testEnv http404 "https://api/" "/e" [] 404 "Not Found"
      (.obj [("error", .str "fail")]) "parse error" rfl).1 rfl,
   rfl⟩

/-- C8: the request helper builds the URL by direct concatenation
base ++ path ++ ("?" ++ query string when non-empty), with no slash
normalization, and attaches exactly the two credential headers; this
holds whatever the oracle answers. -/
theorem C8_request_url_headers :
    ∀ (env : Env) (http : Http) (base path : String) (params : List (String × String))
      (k sk : String),
      env.apiKey = some k → k ≠ "" → env.secretKey = some sk → sk ≠ "" →
      (request env http base path params).2 =
        [⟨base ++ path ++ (if queryString params = "" then "" else "?" ++ queryString params),
          "GET", [("APCA-API-KEY-ID", k), ("APCA-API-SECRET-KEY", sk)]⟩] := by
  intro env http base path params k sk hk hk2 hsk hsk2
  have h : credMissing env = false := by
    simp [credMissing, jsFalsyEnv, hk, hsk, beq_false_of_ne hk2, beq_false_of_ne hsk2]
  simp only [request]
  rw [if_neg (by simp [h])]
  cases hcase : http (mkRequest env base path params) <;>
    simp [mkRequest, hk, hsk]

/-- Witness for C8: the vitest fixture URL https://api//endpoint keeps
the double slash and has no "?" for empty params, and a parameterised
call gets the serialized query appended. -/
theorem C8_request_url_headers_witness :
    (request testEnv httpNoNetwork "https://api/" "/endpoint" []).2 =
      [⟨"https://api/" ++ "/endpoint" ++
          (if queryString [] = "" then "" else "?" ++ queryString []),
        "GET", [("APCA-API-KEY-ID", "key"), ("APCA-API-SECRET-KEY", "secret")]⟩] ∧
    ("https://api/" ++ "/endpoint" ++
      (if queryString ([] : List (String × String)) = "" then "" else "?" ++ queryString []) :
      String) = "https://api//endpoint" ∧
    (request testEnv httpNoNetwork "https://broker/" "/v1/assets"
        [("status", "active"), ("asset_class", "us_equity")]).2.map (fun r => r.url) =
      ["https://broker//v1/assets?status=active&asset_class=us_equity"] :=
  ⟨C8_request_url_headers testEnv httpNoNetwork "https://api/" "/endpoint" [] "key" "secret"
      rfl (by decide) rfl (by decide),
   by decide, by decide⟩

/-! Claim C7: getAssets. -/

theorem tradable_filter_agree (a : Json) (h : tradableBoolOrAbsent a = true) :
    tradableTruthy a = tradableIsTrue a := by
  unfold tradableTruthy tradableIsTrue tradableBoolOrAbsent at *
  cases hf : a.getField "tradable" with
  | none => rfl
  | some v =>
    rw [hf] at h
    cases v with
    | null => exact Bool.noConfusion h
    | bool b => cases b <;> rfl
    | num n => exact Bool.noConfusion h
    | str s => exact Bool.noConfusion h
    | arr items => exact Bool.noConfusion h
    | obj fields => exact Bool.noConfusion h

/-- C7: for every asset class input (defaulting to us_equity), getAssets
issues a single request to the broker base with the assets path and
exactly status=active and asset_class=<input>, and its success payload is
the JSON encoding of the upstream array filtered - in order - to the
records with a truthy tradable attribute; when every record's tradable
attribute is a boolean (or absent), this is exactly the records whose
tradable attribute is true. -/
theorem C7_getAssets_filter :
    ∀ (env : Env) (http : Http) (assetClass : Option String) (items : List Json),
      credMissing env = false →
      http (mkRequest env env.brokerEndpoint "/v1/assets"
          [("status", "active"), ("asset_class", assetClass.getD "us_equity")]) =
        HttpResponse.ok (Json.arr items) →
      getAssets env http assetClass =
        (okEnvelope (jsonStringify (Json.arr (items.filter tradableTruthy))),
         [mkRequest env env.brokerEndpoint "/v1/assets"
            [("status", "active"), ("asset_class", assetClass.getD "us_equity")]]) ∧
      (mkRequest env env.brokerEndpoint "/v1/assets"
          [("status", "active"), ("asset_class", assetClass.getD "us_equity")]).url =
        env.brokerEndpoint ++ "/v1/assets" ++ "?" ++
          ("status=active&asset_class=" ++ urlEncode (assetClass.getD "us_equity")) ∧
      (items.all tradableBoolOrAbsent = true →
        items.filter tradableTruthy = items.filter tradableIsTrue) := by
  intro env http assetClass items h hh
  have hqs : queryString [("status", "active"), ("asset_class", assetClass.getD "us_equity")] =
      "status=active&asset_class=" ++ urlEncode (assetClass.getD "us_equity") := by
    calc queryString [("status", "active"), ("asset_class", assetClass.getD "us_equity")]
        = "status=active&" ++ ("asset_class=" ++ urlEncode (assetClass.getD "us_equity")) := rfl
      _ = ("status=active&" ++ "asset_class=") ++ urlEncode (assetClass.getD "us_equity") :=
          (String.append_assoc _ _ _).symm
      _ = "status=active&asset_class=" ++ urlEncode (assetClass.getD "us_equity") := rfl
  have hne : queryString [("status", "active"), ("asset_class", assetClass.getD "us_equity")] ≠ "" := by
    rw [hqs]
    intro hcon
    have hlen := congrArg String.length hcon
    rw [String.length_append] at hlen
    have h26 : ("status=active&asset_class=" : String).length = 26 := rfl
    have h0 : ("" : String).length = 0 := rfl
    omega
  refine ⟨?_, ?_, ?_⟩
  · have hreq : request env http env.brokerEndpoint "/v1/assets"
        [("status", "active"), ("asset_class", assetClass.getD "us_equity")] =
        (Except.ok (Json.arr items),
         [mkRequest env env.brokerEndpoint "/v1/assets"
            [("status", "active"), ("asset_class", assetClass.getD "us_equity")]]) := by
      simp only [request]
      rw [if_neg (by simp [h]), hh]
    simp [getAssets, hreq]
  · simp only [mkRequest]
    rw [if_neg hne, hqs]
    exact (String.append_assoc _ _ _).symm
  · intro hall
    apply List.filter_congr
    intro a ha
    exact tradable_filter_agree a (List.all_eq_true.mp hall a ha)

/-- Witness for C7 on the vitest fixture: of
[\x7btradable:true,symbol:"A"\x7d, \x7btradable:false,symbol:"B"\x7d] only the
first record survives, and the URL carries both query parameters. -/
theorem C7_getAssets_filter_witness :
    (getAssets testEnv httpAssetsOk (some "us_equity") =
        (okEnvelope (jsonStringify (Json.arr (testAssets.filter tradableTruthy))),
         [mkRequest testEnv testEnv.brokerEndpoint "/v1/assets"
            [("status", "active"), ("asset_class", (some "us_equity").getD "us_equity")]]) ∧
      (mkRequest testEnv testEnv.brokerEndpoint "/v1/assets"
          [("status", "active"), ("asset_class", (some "us_equity").getD "us_equity")]).url =
        testEnv.brokerEndpoint ++ "/v1/assets" ++ "?" ++
          ("status=active&asset_class=" ++ urlEncode ((some "us_equity").getD "us_equity")) ∧
      (testAssets.all tradableBoolOrAbsent = true →
        testAssets.filter tradableTruthy = testAssets.filter tradableIsTrue)) ∧
    jsonStringify (Json.arr (testAssets.filter tradableTruthy)) =
      "[\x7b\"tradable\":true,\"symbol\":\"A\"\x7d]" ∧
    (mkRequest testEnv testEnv.brokerEndpoint "/v1/assets"
        [("status", "active"), ("asset_class", "us_equity")]).url =
      "https://broker//v1/assets?status=active&asset_class=us_equity" :=
  ⟨C7_getAssets_filter testEnv httpAssetsOk (some "us_equity") testAssets rfl rfl,
   by decide, by decide⟩

/-! Claim C6: error propagation policy. -/

/-- C6: every fetcher catches the request helper's errors at its own
boundary and converts them into an isError envelope with its own prefix
(never letting the exception cross the tool boundary), discarding any
partial progress; and a failing batch short-circuits the remaining
batches: processed batches contribute only their trace, never partial
bars. -/
theorem C6_fetcher_error_envelopes :
    (∀ (env : Env) (http : Http) (assetClass : Option String) (m : String)
        (tr : List HttpRequest),
      request env http env.brokerEndpoint "/v1/assets"
          [("status", "active"), ("asset_class", assetClass.getD "us_equity")] =
        (Except.error m, tr) →
      getAssets env http assetClass = (errEnvelope ("Error fetching assets: " ++ m), tr)) ∧
    (∀ (env : Env) (http : Http) (start fin : String) (m : String) (tr : List HttpRequest),
      request env http env.endpoint "/v2/calendar" [("start", start), ("end", fin)] =
        (Except.error m, tr) →
      getMarketDays env http start fin =
        (errEnvelope ("Error fetching market days: " ++ m), tr)) ∧
    (∀ (env : Env) (http : Http) (symbols : List String) (start fin timeframe : String)
        (fuel : Nat) (m : String) (tr : List HttpRequest),
      barsBatchesImpl env http timeframe start fin (getBatches symbols 2000) [] fuel =
        some (Except.error m, tr) →
      getStockBars env http symbols start fin timeframe fuel =
        some (errEnvelope ("Error fetching stock bars: " ++ m), tr)) ∧
    (∀ (env : Env) (http : Http) (start fin : String) (symbols : List String)
        (fuel : Nat) (m : String) (tr : List HttpRequest),
      newsPagesImpl env http start fin symbols none [] fuel = some (Except.error m, tr) →
      getNews env http start fin symbols fuel =
        some (errEnvelope ("Error fetching news: " ++ m), tr)) ∧
    (∀ (env : Env) (http : Http) (timeframe start fin : String)
        (bs1 bs2 : List (List String)) (acc acc1 : List (String × Json))
        (tr1 tr2 : List HttpRequest) (m : String) (fuel : Nat),
      barsBatchesImpl env http timeframe start fin bs1 acc fuel = some (Except.ok acc1, tr1) →
      barsBatchesImpl env http timeframe start fin bs2 acc1 fuel = some (Except.error m, tr2) →
      barsBatchesImpl env http timeframe start fin (bs1 ++ bs2) acc fuel =
        some (Except.error m, tr1 ++ tr2)) := by
  refine ⟨?_, ?_, ?_, ?_, ?_⟩
  · intro env http assetClass m tr hreq
    simp [getAssets, hreq]
  · intro env http start fin m tr hreq
    simp [getMarketDays, hreq]
  · intro env http symbols start fin timeframe fuel m tr hreq
    simp [getStockBars, hreq]
  · intro env http start fin symbols fuel m tr hreq
    simp [getNews, hreq]
  · intro env http timeframe start fin bs1
    induction bs1 with
    | nil =>
      intro bs2 acc acc1 tr1 tr2 m fuel h1 h2
      simp only [barsBatchesImpl] at h1
      obtain ⟨hacc, htr⟩ : Except.ok acc = Except.ok acc1 ∧ ([] : List HttpRequest) = tr1 := by
        have := Option.some.inj h1
        exact ⟨congrArg Prod.fst this, congrArg Prod.snd this⟩
      have hacc2 : acc = acc1 := Except.ok.inj hacc
      subst hacc2
      rw [← htr]
      simpa using h2
    | cons b bs ih =>
      intro bs2 acc acc1 tr1 tr2 m fuel h1 h2
      rcases hp : barsPagesImpl env http timeframe start fin b none acc fuel with _ | ⟨r, trb⟩
      · rw [show ((b :: bs) ++ bs2) = b :: (bs ++ bs2) from rfl]
        simp only [barsBatchesImpl, hp] at h1
        exact absurd h1 (by simp)
      · cases r with
        | error e =>
          simp only [barsBatchesImpl, hp] at h1
          exact absurd (congrArg Prod.fst (Option.some.inj h1)) (by simp)
        | ok acc2 =>
          simp only [barsBatchesImpl, hp] at h1
          rcases hb2 : barsBatchesImpl env http timeframe start fin bs acc2 fuel with _ | ⟨r2, trr⟩
          · rw [hb2] at h1
            exact absurd h1 (by simp)
          · rw [hb2] at h1
            cases r2 with
            | error e =>
              exact absurd (congrArg Prod.fst (Option.some.inj h1)) (by simp)
            | ok acc3 =>
              have hinj := Option.some.inj h1
              have hacc3 : acc3 = acc1 := Except.ok.inj (congrArg Prod.fst hinj)
              have htr1 : trb ++ trr = tr1 := congrArg Prod.snd hinj
              have h2' : barsBatchesImpl env http timeframe start fin bs2 acc3 fuel =
                  some (Except.error m, tr2) := by rw [hacc3]; exact h2
              have hrest := ih bs2 acc2 acc3 trr tr2 m fuel hb2 h2'
              show barsBatchesImpl env http timeframe start fin (b :: (bs ++ bs2)) acc fuel = _
              simp only [barsBatchesImpl, hp, hrest]
              rw [← htr1, List.append_assoc]
  
/-- Witness for C6: a 500 oracle turns into the prefixed assets error
envelope, and a two-batch run whose second batch fails discards the first
batch's bars while keeping both requests in the trace. -/
theorem C6_fetcher_error_envelopes_witness :
    getAssets testEnv http500 none =
      (errEnvelope ("Error fetching assets: " ++ "500 Error - \x7b\"message\":\"fail\"\x7d"),
       [mkRequest testEnv testEnv.brokerEndpoint "/v1/assets"
          [("status", "active"), ("asset_class", "us_equity")]]) ∧
    barsBatchesImpl testEnv httpBarsAThenFail "1Day" "2021-01-01" "2021-01-02"
        ([["A"]] ++ [["B"]]) [] 1 =
      some (Except.error "500 Error - \x7b\"message\":\"fail\"\x7d",
        [mkRequest testEnv testEnv.endpoint "/v2/stocks/bars"
            (barsParams "1Day" "2021-01-01" "2021-01-02" ["A"] none)] ++
        [mkRequest testEnv testEnv.endpoint "/v2/stocks/bars"
            (barsParams "1Day" "2021-01-01" "2021-01-02" ["B"] none)]) :=
  ⟨C6_fetcher_error_envelopes.1 testEnv http500 none
      "500 Error - \x7b\"message\":\"fail\"\x7d"
      [mkRequest testEnv testEnv.brokerEndpoint "/v1/assets"
        [("status", "active"), ("asset_class", "us_equity")]] rfl,
   C6_fetcher_error_envelopes.2.2.2.2 testEnv httpBarsAThenFail "1Day" "2021-01-01" "2021-01-02"
      [["A"]] [["B"]] [] [("A", Json.obj [("value", Json.num 1)])]
      [mkRequest testEnv testEnv.endpoint "/v2/stocks/bars"
        (barsParams "1Day" "2021-01-01" "2021-01-02" ["A"] none)]
      [mkRequest testEnv testEnv.endpoint "/v2/stocks/bars"
        (barsParams "1Day" "2021-01-01" "2021-01-02" ["B"] none)]
      "500 Error - \x7b\"message\":\"fail\"\x7d" 1 rfl rfl⟩

/-! Claims C1 and C2: the two paginated fetchers against the spec-worded
reference definitions. -/

theorem request_eq (env : Env) (http : Http) (base path : String)
    (params : List (String × String)) (h : credMissing env = false) :
    request env http base path params =
      ((match http (mkRequest env base path params) with
        | .ok body => Except.ok body
        | .httpError status statusText body =>
            Except.error (toString status ++ " " ++ statusText ++ " - " ++ jsonStringify body)
        | .httpErrorBadJson _ _ parseErrMsg => Except.error parseErrMsg
        | .transportError msg => Except.error msg),
       [mkRequest env base path params]) := by
  simp only [request]
  rw [if_neg (by simp [h])]
  cases http (mkRequest env base path params) <;> rfl

theorem request_outcome (env : Env) (http : Http) (base path : String)
    (params : List (String × String)) (h : credMissing env = false) :
    ∃ out, request env http base path params = (out, [mkRequest env base path params]) := by
  rw [request_eq env http base path params h]
  exact ⟨_, rfl⟩

theorem barsPagesImpl_eq_collect (env : Env) (http : Http) (timeframe start fin : String)
    (batch : List String) :
    ∀ (fuel : Nat) (tok : Option String) (acc : List (String × Json)),
      barsPagesImpl env http timeframe start fin batch tok acc fuel =
        (specBarsCollect env http timeframe start fin batch tok fuel).map
          (fun p => (p.1.map (fun pages => pages.foldl objAssign acc), p.2)) := by
  intro fuel
  induction fuel with
  | zero => intro tok acc; rfl
  | succ n ih =>
    intro tok acc
    simp only [barsPagesImpl, specBarsCollect]
    rcases hreq : request env http env.endpoint "/v2/stocks/bars"
        (barsParams timeframe start fin batch tok) with ⟨out, tr⟩
    cases out with
    | error e => rfl
    | ok body =>
      dsimp only
      cases htok : nextPageToken body with
      | none => simp [Except.map]
      | some t =>
        dsimp only
        rw [ih (some t) (objAssign acc (assignProps (body.getField "bars")))]
        rcases hc : specBarsCollect env http timeframe start fin batch (some t) n with _ | ⟨r, tr2⟩
        · rfl
        · cases r with
          | error e => rfl
          | ok pages => rfl

theorem barsBatchesImpl_eq_allPages (env : Env) (http : Http) (timeframe start fin : String) :
    ∀ (bs : List (List String)) (acc : List (String × Json)) (fuel : Nat),
      barsBatchesImpl env http timeframe start fin bs acc fuel =
        (specBarsAllPages env http timeframe start fin bs fuel).map
          (fun p => (p.1.map (fun pages => pages.foldl objAssign acc), p.2)) := by
  intro bs
  induction bs with
  | nil => intro acc fuel; rfl
  | cons b bs ih =>
    intro acc fuel
    simp only [barsBatchesImpl, specBarsAllPages]
    rw [barsPagesImpl_eq_collect]
    rcases hc : specBarsCollect env http timeframe start fin b none fuel with _ | ⟨r, tr⟩
    · rfl
    · cases r with
      | error e => rfl
      | ok pages =>
        dsimp only [Option.map_some', Except.map]
        rw [ih (pages.foldl objAssign acc) fuel]
        rcases ha : specBarsAllPages env http timeframe start fin bs fuel with _ | ⟨r2, tr2⟩
        · rfl
        · cases r2 with
          | error e => rfl
          | ok pages2 => simp [Except.map, List.foldl_append]

/-- C1: getStockBars coincides, for every environment, oracle, input and
fuel, with the reference computation written from the claim: partition
the symbols into consecutive batches of at most 2000 (their concatenation
is the input), for each batch in input order run the pagination loop that
issues requests with parameters \x7btimeframe, limit=10000, start, end,
symbols=batch joined by comma\x7d plus page_token once known, merge the
pages' bars mappings (later keys overwrite earlier ones) into one
accumulator, stop when a page carries no continuation token, and wrap the
JSON encoding of \x7b bars: merged \x7d on success. -/
theorem C1_getStockBars_spec (env : Env) (http : Http) (symbols : List String)
    (start fin timeframe : String) (fuel : Nat) :
    getStockBars env http symbols start fin timeframe fuel =
      specGetStockBars env http symbols start fin timeframe fuel ∧
    (specChunks symbols 2000).flatten = symbols ∧
    (∀ b ∈ specChunks symbols 2000, b.length ≤ 2000) := by
  refine ⟨?_, ?_, ?_⟩
  · unfold getStockBars specGetStockBars
    rw [getBatches_eq_specChunks symbols 2000 (by omega),
      show ((2000 : Int).toNat) = 2000 from rfl]
    rw [barsBatchesImpl_eq_allPages]
    rcases ha : specBarsAllPages env http timeframe start fin (specChunks symbols 2000) fuel
      with _ | ⟨r, tr⟩
    · rfl
    · cases r <;> rfl
  · exact specChunksAux_flatten 2000 (by omega) symbols.length symbols (le_refl _)
  · exact specChunksAux_length_le 2000 symbols.length symbols

theorem newsPagesImpl_eq_collect (env : Env) (http : Http) (start fin : String)
    (symbols : List String) :
    ∀ (fuel : Nat) (tok : Option String) (acc : List Json),
      newsPagesImpl env http start fin symbols tok acc fuel =
        (specNewsCollect env http start fin symbols tok fuel).map
          (fun p => (p.1.map (fun pages => acc ++ pages.flatten), p.2)) := by
  intro fuel
  induction fuel with
  | zero => intro tok acc; rfl
  | succ n ih =>
    intro tok acc
    simp only [newsPagesImpl, specNewsCollect]
    rcases hreq : request env http env.endpoint "/v1beta1/news"
        (match tok with
         | some t => [("page_token", t)]
         | none => newsFirstParams start fin symbols) with ⟨out, tr⟩
    cases out with
    | error e => rfl
    | ok body =>
      dsimp only
      cases hni : newsItems body with
      | none => rfl
      | some items =>
        dsimp only
        cases htok : nextPageToken body with
        | none => simp [Except.map]
        | some t =>
          dsimp only
          rw [ih (some t) (acc ++ items)]
          rcases hc : specNewsCollect env http start fin symbols (some t) n with _ | ⟨r, tr2⟩
          · rfl
          · cases r with
            | error e => rfl
            | ok pages => simp [Except.map, List.flatten_cons, List.append_assoc]

theorem newsPagesImpl_trace_tok (env : Env) (http : Http) (start fin : String)
    (symbols : List String) (h : credMissing env = false) :
    ∀ (fuel : Nat) (t0 : String) (acc : List Json)
      (r : Except String (List Json)) (tr : List HttpRequest),
      newsPagesImpl env http start fin symbols (some t0) acc fuel = some (r, tr) →
      ∃ toks : List String, tr = (t0 :: toks).map (newsTokenRequest env) := by
  intro fuel
  induction fuel with
  | zero =>
    intro t0 acc r tr hrun
    exact absurd hrun (by simp [newsPagesImpl])
  | succ n ih =>
    intro t0 acc r tr hrun
    simp only [newsPagesImpl] at hrun
    obtain ⟨out, hout⟩ := request_outcome env http env.endpoint "/v1beta1/news"
      [("page_token", t0)] h
    rw [hout] at hrun
    cases out with
    | error e =>
      dsimp only at hrun
      have htr : tr = [mkRequest env env.endpoint "/v1beta1/news" [("page_token", t0)]] :=
        (congrArg Prod.snd (Option.some.inj hrun)).symm
      exact ⟨[], by rw [htr]; rfl⟩
    | ok body =>
      dsimp only at hrun
      cases hni : newsItems body with
      | none =>
        rw [hni] at hrun
        dsimp only at hrun
        have htr : tr = [mkRequest env env.endpoint "/v1beta1/news" [("page_token", t0)]] :=
          (congrArg Prod.snd (Option.some.inj hrun)).symm
        exact ⟨[], by rw [htr]; rfl⟩
      | some items =>
        rw [hni] at hrun
        dsimp only at hrun
        cases htok2 : nextPageToken body with
        | none =>
          rw [htok2] at hrun
          dsimp only at hrun
          have htr : tr = [mkRequest env env.endpoint "/v1beta1/news" [("page_token", t0)]] :=
            (congrArg Prod.snd (Option.some.inj hrun)).symm
          exact ⟨[], by rw [htr]; rfl⟩
        | some t =>
          rw [htok2] at hrun
          dsimp only at hrun
          rcases hrec : newsPagesImpl env http start fin symbols (some t) (acc ++ items) n
            with _ | ⟨r2, tr2⟩
          · rw [hrec] at hrun
            exact absurd hrun (by simp)
          · rw [hrec] at hrun
            dsimp only at hrun
            have htr : tr = mkRequest env env.endpoint "/v1beta1/news"
                [("page_token", t0)] :: tr2 :=
              (congrArg Prod.snd (Option.some.inj hrun)).symm
            rcases ih t (acc ++ items) r2 tr2 hrec with ⟨toks2, htr2⟩
            exact ⟨t :: toks2, by rw [htr, htr2]; rfl⟩

theorem newsPagesImpl_trace (env : Env) (http : Http) (start fin : String)
    (symbols : List String) (h : credMissing env = false) :
    ∀ (fuel : Nat) (acc : List Json) (r : Except String (List Json)) (tr : List HttpRequest),
      newsPagesImpl env http start fin symbols none acc fuel = some (r, tr) →
      ∃ toks : List String,
        tr = newsFirstRequest env start fin symbols :: toks.map (newsTokenRequest env) := by
  intro fuel acc r tr hrun
  cases fuel with
  | zero => exact absurd hrun (by simp [newsPagesImpl])
  | succ n =>
    simp only [newsPagesImpl] at hrun
    obtain ⟨out, hout⟩ := request_outcome env http env.endpoint "/v1beta1/news"
      (newsFirstParams start fin symbols) h
    rw [hout] at hrun
    cases out with
    | error e =>
      dsimp only at hrun
      have htr : tr = [mkRequest env env.endpoint "/v1beta1/news"
          (newsFirstParams start fin symbols)] :=
        (congrArg Prod.snd (Option.some.inj hrun)).symm
      exact ⟨[], by rw [htr]; rfl⟩
    | ok body =>
      dsimp only at hrun
      cases hni : newsItems body with
      | none =>
        rw [hni] at hrun
        dsimp only at hrun
        have htr : tr = [mkRequest env env.endpoint "/v1beta1/news"
            (newsFirstParams start fin symbols)] :=
          (congrArg Prod.snd (Option.some.inj hrun)).symm
        exact ⟨[], by rw [htr]; rfl⟩
      | some items =>
        rw [hni] at hrun
        dsimp only at hrun
        cases htok2 : nextPageToken body with
        | none =>
          rw [htok2] at hrun
          dsimp only at hrun
          have htr : tr = [mkRequest env env.endpoint "/v1beta1/news"
              (newsFirstParams start fin symbols)] :=
            (congrArg Prod.snd (Option.some.inj hrun)).symm
          exact ⟨[], by rw [htr]; rfl⟩
        | some t =>
          rw [htok2] at hrun
          dsimp only at hrun
          rcases hrec : newsPagesImpl env http start fin symbols (some t) (acc ++ items) n
            with _ | ⟨r2, tr2⟩
          · rw [hrec] at hrun
            exact absurd hrun (by simp)
          · rw [hrec] at hrun
            dsimp only at hrun
            have htr : tr = mkRequest env env.endpoint "/v1beta1/news"
                (newsFirstParams start fin symbols) :: tr2 :=
              (congrArg Prod.snd (Option.some.inj hrun)).symm
            rcases newsPagesImpl_trace_tok env http start fin symbols h n t (acc ++ items)
              r2 tr2 hrec with ⟨toks2, htr2⟩
            exact ⟨t :: toks2, by rw [htr, htr2]; rfl⟩

/-- C2: getNews coincides, for every environment, oracle, input and fuel,
with the reference computation written from the claim (pages' news arrays
appended into one flat list in arrival order, loop stopping when no
continuation token is returned, payload the JSON encoding of the flat
list); and with credentials configured the trace of every completed run
is exactly one first request carrying \x7bsort, start, end, symbols,
include_content\x7d followed by continuation requests carrying only
page_token. -/
theorem C2_getNews_spec (env : Env) (http : Http) (start fin : String)
    (symbols : List String) (fuel : Nat) :
    getNews env http start fin symbols fuel = specGetNews env http start fin symbols fuel ∧
    (credMissing env = false →
      ∀ (out : Envelope) (tr : List HttpRequest),
        getNews env http start fin symbols fuel = some (out, tr) →
        ∃ toks : List String,
          tr = newsFirstRequest env start fin symbols :: toks.map (newsTokenRequest env)) := by
  constructor
  · unfold getNews specGetNews
    rw [newsPagesImpl_eq_collect]
    rcases hc : specNewsCollect env http start fin symbols none fuel with _ | ⟨r, tr⟩
    · rfl
    · cases r with
      | error e => rfl
      | ok pages => simp [Except.map]
  · intro h out tr hrun
    unfold getNews at hrun
    rcases hp : newsPagesImpl env http start fin symbols none [] fuel with _ | ⟨r, tr2⟩
    · rw [hp] at hrun
      exact absurd hrun (by simp)
    · rw [hp] at hrun
      have htr : tr2 = tr := by
        cases r with
        | ok all => exact congrArg Prod.snd (Option.some.inj hrun)
        | error e => exact congrArg Prod.snd (Option.some.inj hrun)
      rw [htr] at hp
      exact newsPagesImpl_trace env http start fin symbols h fuel [] r tr hp

/-- Witness for C2 on a concrete two-page run: the first request carries
the full filter parameters, the continuation request carries only
page_token=tok2, and the flat payload is [\x7b"id":1\x7d,\x7b"id":2\x7d]. -/
theorem C2_getNews_spec_witness :
    (getNews testEnv httpNewsPages "2021-01-01" "2021-01-02" ["A", "B"] 2 =
      specGetNews testEnv httpNewsPages "2021-01-01" "2021-01-02" ["A", "B"] 2) ∧
    (∃ toks : List String,
      [newsFirstRequest testEnv "2021-01-01" "2021-01-02" ["A", "B"],
       newsTokenRequest testEnv "tok2"] =
        newsFirstRequest testEnv "2021-01-01" "2021-01-02" ["A", "B"] ::
          toks.map (newsTokenRequest testEnv)) ∧
    getNews testEnv httpNewsPages "2021-01-01" "2021-01-02" ["A", "B"] 2 =
      some (okEnvelope "[\x7b\"id\":1\x7d,\x7b\"id\":2\x7d]",
        [newsFirstRequest testEnv "2021-01-01" "2021-01-02" ["A", "B"],
         newsTokenRequest testEnv "tok2"]) :=
  ⟨(C2_getNews_spec testEnv httpNewsPages "2021-01-01" "2021-01-02" ["A", "B"] 2).1,
   (C2_getNews_spec testEnv httpNewsPages "2021-01-01" "2021-01-02" ["A", "B"] 2).2 rfl
     (okEnvelope "[\x7b\"id\":1\x7d,\x7b\"id\":2\x7d]")
     [newsFirstRequest testEnv "2021-01-01" "2021-01-02" ["A", "B"],
      newsTokenRequest testEnv "tok2"] rfl,
   rfl⟩

/-- Witness for C1 on a concrete single-batch single-page run mirroring
the vitest fixture: one request with the full parameter set and the
merged payload \x7b"bars":\x7b"A":\x7b"value":1\x7d\x7d\x7d. -/
theorem C1_getStockBars_spec_witness :
    (getStockBars testEnv httpBarsAThenFail ["A"] "2021-01-01" "2021-01-02" "1Day" 1 =
        specGetStockBars testEnv httpBarsAThenFail ["A"] "2021-01-01" "2021-01-02" "1Day" 1 ∧
      (specChunks ["A"] 2000).flatten = ["A"] ∧
      (∀ b ∈ specChunks ["A"] 2000, b.length ≤ 2000)) ∧
    getStockBars testEnv httpBarsAThenFail ["A"] "2021-01-01" "2021-01-02" "1Day" 1 =
      some (okEnvelope "\x7b\"bars\":\x7b\"A\":\x7b\"value\":1\x7d\x7d\x7d",
        [mkRequest testEnv testEnv.endpoint "/v2/stocks/bars"
          (barsParams "1Day" "2021-01-01" "2021-01-02" ["A"] none)]) :=
  ⟨C1_getStockBars_spec testEnv httpBarsAThenFail ["A"] "2021-01-01" "2021-01-02" "1Day" 1,
   by decide⟩

end Alpaca
